import Mathlib

/-!
Verification of `src/cdecl_lldb.py` (cdecl's LLDB pretty-printer for
`c_scope_t` and `c_sname_t`).

The script inspects debuggee memory through lldb's `SBValue` handles.  We
embed a handle as a validity flag plus the unsigned value lldb would report
(`IsValid` / `GetValueAsUnsigned`), and the debuggee memory as three partial
maps: addresses of `slist_node` records (fields `data`, `next`), addresses of
`c_scope_data` records (field `name`), and the host's textual summary of a
string value at an address.  `GetChildMemberWithName` on a pointer handle
reads the record at the handle's address (an invalid handle when the host
cannot resolve it); `Cast` to `c_scope_data_t *` is a value-preserving
reinterpretation, so it is fused into the `name`-field accessor; lldb's
`GetSummary` returns a C string that may be NULL, i.e. Python `None`, which
we model as `Option String`.
-/

/-- An lldb `SBValue` handle for a pointer-sized value: `IsValid` and
`GetValueAsUnsigned`. -/
structure Handle where
  valid : Bool
  value : Nat
deriving DecidableEq, Repr

/-- The invalid handle the host returns when a member lookup or cast cannot
be resolved. -/
def invalidH : Handle := ⟨false, 0⟩

/-- A valid handle at address `a`. -/
def vh (a : Nat) : Handle := ⟨true, a⟩

/-- Line 31-33: `null(ptr)` — whether the `SBValue` is a NULL pointer:
invalid handle, or underlying unsigned value zero. -/
def null (ptr : Handle) : Bool :=
  !ptr.valid || ptr.value == 0

/-- Contents of one `slist_node`: members `data` and `next` as read by
`GetChildMemberWithName`. -/
structure SListNode where
  data : Handle
  next : Handle
deriving DecidableEq, Repr

/-- Contents of one `c_scope_data`: member `name`. -/
structure CScopeData where
  name : Handle
deriving DecidableEq, Repr

/-- Debuggee memory as visible through the host API. -/
structure Memory where
  node : Nat → Option SListNode
  scope : Nat → Option CScopeData
  summary : Nat → Option String

/-- `GetChildMemberWithName('data')` on an `slist_node` pointer handle
(line 61). -/
def Memory.nodeData (m : Memory) (p : Handle) : Handle :=
  if p.valid then
    match m.node p.value with
    | some n => n.data
    | none => invalidH
  else invalidH

/-- `GetChildMemberWithName('next')` on an `slist_node` pointer handle
(line 60, inside the host's `linked_list_iter`). -/
def Memory.nodeNext (m : Memory) (p : Handle) : Handle :=
  if p.valid then
    match m.node p.value with
    | some n => n.next
    | none => invalidH
  else invalidH

/-- `Cast(c_scope_data_ptr_t)` (value-preserving, lines 44/63) followed by
`GetChildMemberWithName('name')` (lines 45/64). -/
def Memory.scopeName (m : Memory) (p : Handle) : Handle :=
  if p.valid then
    match m.scope p.value with
    | some d => d.name
    | none => invalidH
  else invalidH

/-- `GetSummary()` (lines 47/70): the host's quoted textual summary of a
string value, or `none` when the host cannot produce one (lldb returns a
NULL `const char *`, Python `None`). -/
def Memory.getSummary (m : Memory) (p : Handle) : Option String :=
  if p.valid then m.summary p.value else none

/-- The double-quote character used by the host's string summaries. -/
def dq : Char := '\"'

/-- Strip all leading and all trailing double quotes from a character list:
the list-level content of Python `str.strip` with the quote character. -/
def stripL (l : List Char) : List Char :=
  ((l.dropWhile (fun c => c == dq)).reverse.dropWhile (fun c => c == dq)).reverse

/-- Python `s.strip` applied with the double-quote character (lines 47/70):
removes every leading and every trailing double quote. -/
def stripQuotes (s : String) : String :=
  String.mk (stripL s.data)

/-- The Python exception raised by `None.strip`. -/
def pyAttrError : String := "AttributeError: NoneType object has no attribute strip"

/-- `x.strip('"')` applied to the result of `GetSummary()`: when the summary
is `None`, the attribute access raises `AttributeError` (lines 47/70). -/
def pyStrip (x : Option String) : Except String String :=
  match x with
  | some s => Except.ok (stripQuotes s)
  | none => Except.error pyAttrError

/-- A `c_scope_t` value as passed to `show_c_scope_t`: the formatter only
reads its `data` member (line 42). -/
structure CScopeVal where
  data : Handle
deriving DecidableEq, Repr

/-- A `c_sname_t` value as passed to `show_c_sname_t`: the formatter only
reads its `head` member (line 59). -/
structure CSnameVal where
  head : Handle
deriving DecidableEq, Repr

/-- Lines 40-47 of `show_c_scope_t`: the bare accumulator `rv` (before the
final quote wrapping), or the propagated Python exception. -/
def scopeRv (m : Memory) (c_scope : CScopeVal) : Except String String :=
  let void_data_ptr := c_scope.data
  if !(null void_data_ptr) then
    let name_ptr := Memory.scopeName m void_data_ptr
    if !(null name_ptr) then
      pyStrip (Memory.getSummary m name_ptr)
    else Except.ok ""
  else Except.ok ""

/-- Lines 36-49: `show_c_scope_t` — the bare name wrapped in quote
characters (line 49), or the propagated Python exception. -/
def show_c_scope_t (m : Memory) (c_scope : CScopeVal) : Except String String :=
  (scopeRv m c_scope).map (fun rv => "\"" ++ rv ++ "\"")

/-- Modelled from the spec: the host's `SBValue.linked_list_iter('next')`
(line 60) is lldb host code, not part of this repository.  Per §4.3 the
cursor starts at the chain's `head` and, while the cursor is not absent per
the guard, the body runs and the cursor advances to the node's `next`
reference.  `fuel` is an explicit budget that makes the embedding total;
the termination theorems show the result is fuel-independent once the fuel
covers the chain's length. -/
def chainNodes (m : Memory) : Nat → Handle → List Handle
  | 0, _ => []
  | fuel + 1, item =>
    if null item then [] else item :: chainNodes m fuel (Memory.nodeNext m item)

/-- Lines 61-70: the body of `show_c_sname_t`'s loop for one visited node.
State is `(colon2, rv)`.  When the node's `data` passes the guard and the
record's `name` passes the guard, a separator is appended if `colon2` is
already set (else `colon2` is set), and then the stripped summary is
appended; `pyStrip` propagates the `AttributeError` raised on a `None`
summary. -/
def snameStep (m : Memory) (st : Bool × String) (slist_node_ptr : Handle) :
    Except String (Bool × String) :=
  let void_data_ptr := Memory.nodeData m slist_node_ptr
  if !(null void_data_ptr) then
    let name_ptr := Memory.scopeName m void_data_ptr
    if !(null name_ptr) then
      let st1 : Bool × String := if st.1 then (st.1, st.2 ++ "::") else (true, st.2)
      match pyStrip (Memory.getSummary m name_ptr) with
      | Except.ok s => Except.ok (st1.1, st1.2 ++ s)
      | Except.error e => Except.error e
    else Except.ok st
  else Except.ok st

/-- Lines 56-70 of `show_c_sname_t`: the `(colon2, rv)` state after folding
the loop body over the visited nodes, starting from `(False, "")`. -/
def snameRv (m : Memory) (fuel : Nat) (c_sname : CSnameVal) :
    Except String (Bool × String) :=
  (chainNodes m fuel c_sname.head).foldlM (snameStep m) (false, "")

/-- Lines 52-72: `show_c_sname_t` — the accumulated joined name wrapped in
quote characters (line 72), or the propagated Python exception. -/
def show_c_sname_t (m : Memory) (fuel : Nat) (c_sname : CSnameVal) :
    Except String String :=
  (snameRv m fuel c_sname).map (fun st => "\"" ++ st.2 ++ "\"")

/-- The `name` handle of the scope-data record referenced by a chain node's
`data` member (the reads of lines 61-64 composed). -/
def segNamePtr (m : Memory) (p : Handle) : Handle :=
  Memory.scopeName m (Memory.nodeData m p)

/-- The host summary of a chain node's name string. -/
def segSummary (m : Memory) (p : Handle) : Option String :=
  Memory.getSummary m (segNamePtr m p)

/-- The extracted (quote-stripped) name a chain node renders as; absent
summaries render as the empty string. -/
def segStr (m : Memory) (p : Handle) : String :=
  stripQuotes ((segSummary m p).getD "")

/-- Whether the loop body of `show_c_sname_t` emits a name for this node:
both guard checks of lines 62 and 65 pass.  Note the code never checks the
extracted text for emptiness. -/
def emits (m : Memory) (p : Handle) : Bool :=
  !(null (Memory.nodeData m p)) && !(null (segNamePtr m p))

/-- Tail of a `::`-separated join: one separator before each entry. -/
def sepTail : List String → String
  | [] => ""
  | s :: ss => "::" ++ s ++ sepTail ss

/-- Names joined with the two-character separator between consecutive
entries: `sepJoin [a, b, c] = a ++ "::" ++ b ++ "::" ++ c`. -/
def sepJoin : List String → String
  | [] => ""
  | s :: ss => s ++ sepTail ss

/-- Distance to the first absent reference along the `next` chain, within a
fuel bound: `firstNull m n h = some j` says the `j`-th iterate of `next`
starting at `h` is the first one the guard reports absent — i.e. the chain
reachable from `h` is finite and acyclic, of length `j`. -/
def firstNull (m : Memory) : Nat → Handle → Option Nat
  | 0, item => if null item then some 0 else none
  | n + 1, item =>
    if null item then some 0
    else (firstNull m n (Memory.nodeNext m item)).map Nat.succ

/-- The `k`-th iterate of the `next` reference. -/
def iterNext (m : Memory) : Nat → Handle → Handle
  | 0, h => h
  | k + 1, h => iterNext m k (Memory.nodeNext m h)

/-- Variant of the cast + `name` read in which dereferencing an absent data
reference is an explicit fault (used to prove every dereference in the
formatters is dominated by a guard). -/
def Memory.scopeNameChk (m : Memory) (p : Handle) : Except String Handle :=
  if null p then Except.error "DEREF_ABSENT" else Except.ok (Memory.scopeName m p)

/-- Variant of `GetSummary` in which reading through an absent name
reference is an explicit fault. -/
def Memory.getSummaryChk (m : Memory) (p : Handle) : Except String (Option String) :=
  if null p then Except.error "DEREF_ABSENT" else Except.ok (Memory.getSummary m p)

/-- `scopeRv` with the faulting dereference variants in place of the plain
reads; the code's own guards (lines 43/46) are kept as written. -/
def scopeRvChk (m : Memory) (c_scope : CScopeVal) : Except String String :=
  let void_data_ptr := c_scope.data
  if !(null void_data_ptr) then
    match Memory.scopeNameChk m void_data_ptr with
    | Except.error e => Except.error e
    | Except.ok name_ptr =>
      if !(null name_ptr) then
        match Memory.getSummaryChk m name_ptr with
        | Except.error e => Except.error e
        | Except.ok os => pyStrip os
      else Except.ok ""
  else Except.ok ""

/-- `show_c_scope_t` over the faulting dereference variants. -/
def show_c_scope_t_chk (m : Memory) (c_scope : CScopeVal) : Except String String :=
  (scopeRvChk m c_scope).map (fun rv => "\"" ++ rv ++ "\"")

/-- `snameStep` with the faulting dereference variants in place of the plain
reads; the code's own guards (lines 62/65) are kept as written. -/
def snameStepChk (m : Memory) (st : Bool × String) (slist_node_ptr : Handle) :
    Except String (Bool × String) :=
  let void_data_ptr := Memory.nodeData m slist_node_ptr
  if !(null void_data_ptr) then
    match Memory.scopeNameChk m void_data_ptr with
    | Except.error e => Except.error e
    | Except.ok name_ptr =>
      if !(null name_ptr) then
        let st1 : Bool × String := if st.1 then (st.1, st.2 ++ "::") else (true, st.2)
        match Memory.getSummaryChk m name_ptr with
        | Except.error e => Except.error e
        | Except.ok os =>
          match pyStrip os with
          | Except.ok s => Except.ok (st1.1, st1.2 ++ s)
          | Except.error e => Except.error e
      else Except.ok st
  else Except.ok st

/-- `show_c_sname_t` over the faulting dereference variants. -/
def show_c_sname_t_chk (m : Memory) (fuel : Nat) (c_sname : CSnameVal) :
    Except String String :=
  ((chainNodes m fuel c_sname.head).foldlM (snameStepChk m) (false, "")).map
    (fun st => "\"" ++ st.2 ++ "\"")

/-- Three-node demo memory: chain 1 → 2 → 3 → null, scope data at 11/12/13,
name strings at 21/22/23 with summaries "A", "B", "C". -/
def memABC : Memory where
  node := fun a =>
    if a = 1 then some ⟨vh 11, vh 2⟩
    else if a = 2 then some ⟨vh 12, vh 3⟩
    else if a = 3 then some ⟨vh 13, vh 0⟩
    else none
  scope := fun a =>
    if a = 11 then some ⟨vh 21⟩
    else if a = 12 then some ⟨vh 22⟩
    else if a = 13 then some ⟨vh 23⟩
    else none
  summary := fun a =>
    if a = 21 then some "\"A\""
    else if a = 22 then some "\"B\""
    else if a = 23 then some "\"C\""
    else none

/-- Like `memABC` but the middle name string is the empty C string: its
summary is the two quote characters, which strips to the empty extracted
name while the name reference itself passes the guard. -/
def memAEC : Memory where
  node := fun a =>
    if a = 1 then some ⟨vh 11, vh 2⟩
    else if a = 2 then some ⟨vh 12, vh 3⟩
    else if a = 3 then some ⟨vh 13, vh 0⟩
    else none
  scope := fun a =>
    if a = 11 then some ⟨vh 21⟩
    else if a = 12 then some ⟨vh 22⟩
    else if a = 13 then some ⟨vh 23⟩
    else none
  summary := fun a =>
    if a = 21 then some "\"A\""
    else if a = 22 then some "\"\""
    else if a = 23 then some "\"C\""
    else none

/-- Like `memABC` but the middle record's `name` reference is an absent
(zero) reference. -/
def memANC : Memory where
  node := fun a =>
    if a = 1 then some ⟨vh 11, vh 2⟩
    else if a = 2 then some ⟨vh 12, vh 3⟩
    else if a = 3 then some ⟨vh 13, vh 0⟩
    else none
  scope := fun a =>
    if a = 11 then some ⟨vh 21⟩
    else if a = 12 then some ⟨vh 0⟩
    else if a = 13 then some ⟨vh 23⟩
    else none
  summary := fun a =>
    if a = 21 then some "\"A\""
    else if a = 23 then some "\"C\""
    else none

/-- Two-node chain in which every node's `data` reference is absent (one a
zero reference, one an invalid handle). -/
def memND : Memory where
  node := fun a =>
    if a = 1 then some ⟨vh 0, vh 2⟩
    else if a = 2 then some ⟨invalidH, vh 0⟩
    else none
  scope := fun _ => none
  summary := fun _ => none

/-- One-node chain whose guarded name reference has no host summary
(`GetSummary` returns `None`). -/
def memNoSum : Memory where
  node := fun a => if a = 1 then some ⟨vh 11, vh 0⟩ else none
  scope := fun a => if a = 11 then some ⟨vh 21⟩ else none
  summary := fun _ => none

/-- Like `memABC` but every address has an available summary. -/
def memTotal : Memory where
  node := fun a =>
    if a = 1 then some ⟨vh 11, vh 2⟩
    else if a = 2 then some ⟨vh 12, vh 3⟩
    else if a = 3 then some ⟨vh 13, vh 0⟩
    else none
  scope := fun a =>
    if a = 11 then some ⟨vh 21⟩
    else if a = 12 then some ⟨vh 22⟩
    else if a = 13 then some ⟨vh 23⟩
    else none
  summary := fun _ => some "\"Z\""

/-! ## Basic properties of the guard and the traversal -/

theorem null_true_iff (ptr : Handle) :
    null ptr = true ↔ (ptr.valid = false ∨ ptr.value = 0) := by
  simp [null]

theorem null_false_iff (ptr : Handle) :
    null ptr = false ↔ (ptr.valid = true ∧ ptr.value ≠ 0) := by
  simp [null]

theorem chainNodes_of_null (m : Memory) (fuel : Nat) {h : Handle}
    (hn : null h = true) : chainNodes m fuel h = [] := by
  cases fuel <;> simp [chainNodes, hn]

theorem chainNodes_succ (m : Memory) (fuel : Nat) {h : Handle}
    (hn : null h = false) :
    chainNodes m (fuel + 1) h = h :: chainNodes m fuel (Memory.nodeNext m h) := by
  simp [chainNodes, hn]

theorem mem_chainNodes_not_null {m : Memory} {fuel : Nat} {h p : Handle}
    (hp : p ∈ chainNodes m fuel h) : null p = false := by
  induction fuel generalizing h with
  | zero => simp [chainNodes] at hp
  | succ n ih =>
    by_cases hn : null h = true
    · rw [chainNodes_of_null m _ hn] at hp
      simp at hp
    · rw [chainNodes_succ m n (Bool.not_eq_true _ ▸ hn)] at hp
      rcases List.mem_cons.mp hp with rfl | hp'
      · exact Bool.not_eq_true _ ▸ hn
      · exact ih hp'

theorem sepJoin_nil : sepJoin [] = "" := rfl

theorem sepJoin_singleton (s : String) : sepJoin [s] = s := by
  show s ++ sepTail [] = s
  simp [sepTail]

theorem sepJoin_cons_cons (s t : String) (ss : List String) :
    sepJoin (s :: t :: ss) = s ++ "::" ++ sepJoin (t :: ss) := by
  show s ++ ("::" ++ t ++ sepTail ss) = s ++ "::" ++ (t ++ sepTail ss)
  simp [String.append_assoc]

/-! ## Characterizing one iteration of the chain loop body -/

theorem snameStep_skip (m : Memory) (st : Bool × String) (p : Handle)
    (h : emits m p = false) : snameStep m st p = Except.ok st := by
  have h' : null (Memory.nodeData m p) = false →
      null (Memory.scopeName m (Memory.nodeData m p)) = true := by
    simpa [emits, segNamePtr] using h
  unfold snameStep
  by_cases h1 : null (Memory.nodeData m p) = true
  · simp [h1]
  · have h1' : null (Memory.nodeData m p) = false := by simpa using h1
    simp [h1', h' h1']

theorem snameStep_emit (m : Memory) (p : Handle) (b : Bool) (rv s : String)
    (he : emits m p = true) (hs : segSummary m p = some s) :
    snameStep m (b, rv) p =
      Except.ok (true, (if b then rv ++ "::" else rv) ++ stripQuotes s) := by
  have he' : null (Memory.nodeData m p) = false ∧
      null (Memory.scopeName m (Memory.nodeData m p)) = false := by
    simpa [emits, segNamePtr] using he
  rw [segSummary, segNamePtr] at hs
  unfold snameStep
  simp only [he'.1, he'.2, hs, pyStrip, Bool.not_false, if_true]
  cases b <;> simp

theorem snameStep_raise (m : Memory) (st : Bool × String) (p : Handle)
    (he : emits m p = true) (hs : segSummary m p = none) :
    snameStep m st p = Except.error pyAttrError := by
  have he' : null (Memory.nodeData m p) = false ∧
      null (Memory.scopeName m (Memory.nodeData m p)) = false := by
    simpa [emits, segNamePtr] using he
  rw [segSummary, segNamePtr] at hs
  unfold snameStep
  simp only [he'.1, he'.2, hs, pyStrip, Bool.not_false, if_true]

/-! ## Folding the loop body over the visited nodes -/

theorem sname_fold_skip (m : Memory) (l : List Handle)
    (hall : ∀ p ∈ l, emits m p = false) :
    ∀ st : Bool × String, l.foldlM (snameStep m) st = Except.ok st := by
  induction l with
  | nil => intro st; rfl
  | cons p t ih =>
    intro st
    rw [List.foldlM_cons, snameStep_skip m st p (hall p (List.mem_cons_self p t))]
    simpa using ih (fun q hq => hall q (List.mem_cons_of_mem p hq)) st

theorem sname_fold_emit_true (m : Memory) (l : List Handle)
    (hall : ∀ p ∈ l, emits m p = true ∧ (segSummary m p).isSome = true) :
    ∀ rv : String,
      l.foldlM (snameStep m) (true, rv) =
        Except.ok (true, rv ++ sepTail (l.map (segStr m))) := by
  induction l with
  | nil =>
    intro rv
    show Except.ok (true, rv) = Except.ok (true, rv ++ sepTail [])
    simp [sepTail]
  | cons p t ih =>
    intro rv
    obtain ⟨he, hs⟩ := hall p (List.mem_cons_self p t)
    obtain ⟨s, hsome⟩ := Option.isSome_iff_exists.mp hs
    rw [List.foldlM_cons, snameStep_emit m p true rv s he hsome]
    have hseg : segStr m p = stripQuotes s := by simp [segStr, hsome]
    show (t.foldlM (snameStep m) (true, rv ++ "::" ++ stripQuotes s)) = _
    rw [ih (fun q hq => hall q (List.mem_cons_of_mem p hq))]
    simp [hseg, sepTail, String.append_assoc]

theorem sname_fold_emit (m : Memory) (l : List Handle)
    (hall : ∀ p ∈ l, emits m p = true ∧ (segSummary m p).isSome = true) :
    ∃ b : Bool,
      l.foldlM (snameStep m) (false, "") =
        Except.ok (b, sepJoin (l.map (segStr m))) := by
  cases l with
  | nil =>
    refine ⟨false, ?_⟩
    show Except.ok ((false : Bool), "") = Except.ok ((false : Bool), sepJoin [])
    simp [sepJoin]
  | cons p t =>
    obtain ⟨he, hs⟩ := hall p (List.mem_cons_self p t)
    obtain ⟨s, hsome⟩ := Option.isSome_iff_exists.mp hs
    refine ⟨true, ?_⟩
    rw [List.foldlM_cons, snameStep_emit m p false "" s he hsome]
    have hseg : segStr m p = stripQuotes s := by simp [segStr, hsome]
    show (t.foldlM (snameStep m) (true, "" ++ stripQuotes s)) = _
    rw [sname_fold_emit_true m t (fun q hq => hall q (List.mem_cons_of_mem p hq))]
    simp [hseg, sepJoin, String.append_assoc]

/-! ## Shape of the final results -/

theorem show_scope_ok_shape {m : Memory} {v : CScopeVal} {s : String}
    (h : show_c_scope_t m v = Except.ok s) :
    ∃ rv, scopeRv m v = Except.ok rv ∧ s = "\"" ++ rv ++ "\"" := by
  unfold show_c_scope_t at h
  cases hr : scopeRv m v with
  | ok rv => rw [hr] at h; exact ⟨rv, rfl, by simpa [Except.map] using h.symm⟩
  | error e => rw [hr] at h; simp [Except.map] at h

theorem show_sname_ok_shape {m : Memory} {fuel : Nat} {w : CSnameVal} {s : String}
    (h : show_c_sname_t m fuel w = Except.ok s) :
    ∃ st : Bool × String, snameRv m fuel w = Except.ok st ∧ s = "\"" ++ st.2 ++ "\"" := by
  unfold show_c_sname_t at h
  cases hr : snameRv m fuel w with
  | ok st => rw [hr] at h; exact ⟨st, rfl, by simpa [Except.map] using h.symm⟩
  | error e => rw [hr] at h; simp [Except.map] at h

theorem wrap_length (rv : String) : ("\"" ++ rv ++ "\"").length = rv.length + 2 := by
  rw [String.length_append, String.length_append]
  have h1 : ("\"" : String).length = 1 := rfl
  rw [h1]
  omega

theorem wrap_ne_empty (rv : String) : ("\"" ++ rv ++ "\"") ≠ "" := by
  intro h
  have hl := congrArg String.length h
  rw [wrap_length] at hl
  have h0 : ("" : String).length = 0 := rfl
  rw [h0] at hl
  omega

/-! ## Finite acyclic chains: the distance to the first absent reference -/

theorem firstNull_zero {m : Memory} {n : Nat} {h : Handle}
    (hf : firstNull m n h = some 0) : null h = true := by
  cases n with
  | zero =>
    by_cases hn : null h = true
    · exact hn
    · simp [firstNull, hn] at hf
  | succ n' =>
    by_cases hn : null h = true
    · exact hn
    · simp [firstNull, hn] at hf

theorem firstNull_of_null {m : Memory} {h : Handle} (hn : null h = true)
    (n : Nat) : firstNull m n h = some 0 := by
  cases n <;> simp [firstNull, hn]

theorem firstNull_succ_elim {m : Memory} {n : Nat} {h : Handle} {j : Nat}
    (hf : firstNull m n h = some (j + 1)) :
    null h = false ∧
      ∃ n', n = n' + 1 ∧ firstNull m n' (Memory.nodeNext m h) = some j := by
  cases n with
  | zero =>
    by_cases hn : null h = true <;> simp [firstNull, hn] at hf
  | succ n' =>
    by_cases hn : null h = true
    · simp [firstNull, hn] at hf
    · have hn' : null h = false := by simpa using hn
      refine ⟨hn', n', rfl, ?_⟩
      simp only [firstNull, hn', if_false, Bool.false_eq_true,
        Option.map_eq_some'] at hf
      obtain ⟨j', hj', hjj⟩ := hf
      have : j' = j := by omega
      rw [← this]
      exact hj'

theorem firstNull_stable {m : Memory} :
    ∀ {n n' : Nat} {h : Handle} {j : Nat},
      firstNull m n h = some j → n ≤ n' → firstNull m n' h = some j := by
  intro n
  induction n with
  | zero =>
    intro n' h j hf _
    have h0 : null h = true ∧ j = 0 := by
      by_cases hn : null h = true
      · refine ⟨hn, ?_⟩
        simp [firstNull, hn] at hf
        omega
      · simp [firstNull, hn] at hf
    rw [h0.2]
    exact firstNull_of_null h0.1 n'
  | succ n0 ih =>
    intro n' h j hf hle
    by_cases hn : null h = true
    · have : j = 0 := by simp [firstNull, hn] at hf; omega
      rw [this]
      exact firstNull_of_null hn n'
    · have hn' : null h = false := by simpa using hn
      simp only [firstNull, hn', if_false, Bool.false_eq_true,
        Option.map_eq_some'] at hf
      obtain ⟨j0, hj0, hjj⟩ := hf
      obtain ⟨n1, rfl⟩ : ∃ n1, n' = n1 + 1 := ⟨n' - 1, by omega⟩
      have : firstNull m n1 (Memory.nodeNext m h) = some j0 :=
        ih hj0 (by omega)
      simp only [firstNull, hn', if_false, Bool.false_eq_true, this,
        Option.map_some']
      rw [← hjj]

theorem firstNull_det {m : Memory} {n n' : Nat} {h : Handle} {j j' : Nat}
    (h1 : firstNull m n h = some j) (h2 : firstNull m n' h = some j') :
    j = j' := by
  have s1 := firstNull_stable h1 (Nat.le_max_left n n')
  have s2 := firstNull_stable h2 (Nat.le_max_right n n')
  rw [s1] at s2
  exact Option.some.inj s2

theorem iterNext_zero (m : Memory) (h : Handle) : iterNext m 0 h = h := rfl

theorem iterNext_succ (m : Memory) (k : Nat) (h : Handle) :
    iterNext m (k + 1) h = iterNext m k (Memory.nodeNext m h) := rfl

theorem chainNodes_canon {m : Memory} :
    ∀ {j : Nat} {n : Nat} {h : Handle},
      firstNull m n h = some j → ∀ f, j ≤ f →
        chainNodes m f h = (List.range j).map (fun k => iterNext m k h) := by
  intro j
  induction j with
  | zero =>
    intro n h hf f _
    rw [chainNodes_of_null m f (firstNull_zero hf)]
    simp
  | succ j0 ih =>
    intro n h hf f hjf
    obtain ⟨hn, n0, rfl, hf0⟩ := firstNull_succ_elim hf
    obtain ⟨f0, rfl⟩ : ∃ f0, f = f0 + 1 := ⟨f - 1, by omega⟩
    rw [chainNodes_succ m f0 hn, ih hf0 f0 (by omega),
      List.range_succ_eq_map]
    simp [List.map_map, Function.comp_def, iterNext_succ, iterNext_zero]

theorem mem_chainNodes_firstNull {m : Memory} :
    ∀ {f n : Nat} {h : Handle} {j : Nat} {x : Handle},
      firstNull m n h = some j → x ∈ chainNodes m f h →
        ∃ nx jx, firstNull m nx x = some jx ∧ jx ≤ j := by
  intro f
  induction f with
  | zero => intro n h j x _ hx; simp [chainNodes] at hx
  | succ f0 ih =>
    intro n h j x hf hx
    by_cases hn : null h = true
    · rw [chainNodes_of_null m _ hn] at hx
      simp at hx
    · have hn' : null h = false := by simpa using hn
      rw [chainNodes_succ m f0 hn'] at hx
      obtain ⟨j0, rfl⟩ : ∃ j0, j = j0 + 1 := by
        cases j with
        | zero => exact absurd (firstNull_zero hf) (by simp [hn'])
        | succ j0 => exact ⟨j0, rfl⟩
      obtain ⟨n0, _, hf0⟩ := (firstNull_succ_elim hf).2
      rcases List.mem_cons.mp hx with rfl | hx'
      · exact ⟨n, j0 + 1, hf, Nat.le_refl _⟩
      · obtain ⟨nx, jx, hfx, hjx⟩ := ih hf0 hx'
        exact ⟨nx, jx, hfx, by omega⟩

theorem chainNodes_nodup {m : Memory} :
    ∀ {f n : Nat} {h : Handle} {j : Nat},
      firstNull m n h = some j → (chainNodes m f h).Nodup := by
  intro f
  induction f with
  | zero => intro n h j _; simp [chainNodes]
  | succ f0 ih =>
    intro n h j hf
    by_cases hn : null h = true
    · rw [chainNodes_of_null m _ hn]; simp
    · have hn' : null h = false := by simpa using hn
      rw [chainNodes_succ m f0 hn']
      obtain ⟨j0, rfl⟩ : ∃ j0, j = j0 + 1 := by
        cases j with
        | zero => exact absurd (firstNull_zero hf) (by simp [hn'])
        | succ j0 => exact ⟨j0, rfl⟩
      obtain ⟨n0, _, hf0⟩ := (firstNull_succ_elim hf).2
      refine List.nodup_cons.mpr ⟨?_, ih hf0⟩
      intro hmem
      obtain ⟨nx, jx, hfx, hjx⟩ := mem_chainNodes_firstNull hf0 hmem
      have : jx = j0 + 1 := firstNull_det hfx hf
      omega

/-! ## Except helpers -/

theorem except_bind_ok {α β : Type} (a : α) (f : α → Except String β) :
    (Except.ok a >>= f) = f a := rfl

theorem except_bind_error {α β : Type} (e : String) (f : α → Except String β) :
    ((Except.error e : Except String α) >>= f : Except String β) = Except.error e := rfl

theorem except_map_ok {α β : Type} (f : α → β) (a : α) :
    (Except.ok a : Except String α).map f = Except.ok (f a) := rfl

theorem except_map_error {α β : Type} (f : α → β) (e : String) :
    (Except.error e : Except String α).map f = Except.error e := rfl

/-! ## The faulting-dereference semantics agrees with the plain one -/

theorem scopeRvChk_eq (m : Memory) (v : CScopeVal) : scopeRvChk m v = scopeRv m v := by
  unfold scopeRvChk scopeRv Memory.scopeNameChk Memory.getSummaryChk
  by_cases h1 : null v.data = true
  · simp [h1]
  · have h1' : null v.data = false := by simpa using h1
    by_cases h2 : null (Memory.scopeName m v.data) = true
    · simp [h1', h2]
    · have h2' : null (Memory.scopeName m v.data) = false := by simpa using h2
      simp [h1', h2']

theorem show_c_scope_t_chk_eq (m : Memory) (v : CScopeVal) :
    show_c_scope_t_chk m v = show_c_scope_t m v := by
  unfold show_c_scope_t_chk show_c_scope_t
  rw [scopeRvChk_eq]

theorem snameStepChk_eq (m : Memory) (st : Bool × String) (p : Handle) :
    snameStepChk m st p = snameStep m st p := by
  unfold snameStepChk snameStep Memory.scopeNameChk Memory.getSummaryChk
  by_cases h1 : null (Memory.nodeData m p) = true
  · simp [h1]
  · have h1' : null (Memory.nodeData m p) = false := by simpa using h1
    by_cases h2 : null (Memory.scopeName m (Memory.nodeData m p)) = true
    · simp [h1', h2]
    · have h2' : null (Memory.scopeName m (Memory.nodeData m p)) = false := by
        simpa using h2
      simp [h1', h2']

theorem show_c_sname_t_chk_eq (m : Memory) (fuel : Nat) (w : CSnameVal) :
    show_c_sname_t_chk m fuel w = show_c_sname_t m fuel w := by
  unfold show_c_sname_t_chk show_c_sname_t snameRv
  have hfun : snameStepChk m = snameStep m :=
    funext fun st => funext fun p => snameStepChk_eq m st p
  rw [hfun]

/-! ## When every summary is available the fold cannot raise -/

theorem emits_name_not_null {m : Memory} {p : Handle} (he : emits m p = true) :
    null (segNamePtr m p) = false := by
  have he' : null (Memory.nodeData m p) = false ∧
      null (Memory.scopeName m (Memory.nodeData m p)) = false := by
    simpa [emits, segNamePtr] using he
  rw [segNamePtr]
  exact he'.2

theorem snameStep_isOk (m : Memory) (hs : ∀ a, m.summary a ≠ none)
    (st : Bool × String) (p : Handle) :
    ∃ st', snameStep m st p = Except.ok st' := by
  by_cases he : emits m p = true
  · cases hsum : segSummary m p with
    | some s =>
      obtain ⟨b, rv⟩ := st
      exact ⟨_, snameStep_emit m p b rv s he hsum⟩
    | none =>
      exfalso
      have hv : (segNamePtr m p).valid = true :=
        ((null_false_iff _).mp (emits_name_not_null he)).1
      rw [segSummary, Memory.getSummary, hv] at hsum
      simp at hsum
      exact hs _ hsum
  · exact ⟨st, snameStep_skip m st p (by simpa using he)⟩

theorem sname_fold_isOk (m : Memory) (hs : ∀ a, m.summary a ≠ none)
    (l : List Handle) :
    ∀ st : Bool × String, ∃ st', l.foldlM (snameStep m) st = Except.ok st' := by
  induction l with
  | nil => intro st; exact ⟨st, rfl⟩
  | cons p t ih =>
    intro st
    obtain ⟨st1, h1⟩ := snameStep_isOk m hs st p
    obtain ⟨st2, h2⟩ := ih st1
    exact ⟨st2, by rw [List.foldlM_cons, h1, except_bind_ok]; exact h2⟩

/-! ## The only possible exception is the one from a missing summary -/

theorem snameStep_error_eq {m : Memory} {st : Bool × String} {p : Handle}
    {e : String} (h : snameStep m st p = Except.error e) : e = pyAttrError := by
  by_cases he : emits m p = true
  · cases hsum : segSummary m p with
    | some s =>
      obtain ⟨b, rv⟩ := st
      rw [snameStep_emit m p b rv s he hsum] at h
      exact absurd h (by simp)
    | none =>
      rw [snameStep_raise m st p he hsum] at h
      exact (Except.error.inj h).symm
  · rw [snameStep_skip m st p (by simpa using he)] at h
    exact absurd h (by simp)

theorem sname_fold_error_eq {m : Memory} {l : List Handle} :
    ∀ {st : Bool × String} {e : String},
      l.foldlM (snameStep m) st = Except.error e → e = pyAttrError := by
  induction l with
  | nil =>
    intro st e h
    have h' : (Except.ok st : Except String (Bool × String)) = Except.error e := h
    exact absurd h' (by simp)
  | cons p t ih =>
    intro st e h
    rw [List.foldlM_cons] at h
    cases hstep : snameStep m st p with
    | ok st1 =>
      rw [hstep, except_bind_ok] at h
      exact ih h
    | error e1 =>
      rw [hstep, except_bind_error] at h
      rw [← Except.error.inj h]
      exact snameStep_error_eq hstep

/-! ## Quote stripping removes every leading and trailing quote -/

theorem head?_dropWhile_false (p : Char → Bool) :
    ∀ {l : List Char} {a : Char}, (l.dropWhile p).head? = some a → p a = false := by
  intro l
  induction l with
  | nil => intro a h; simp [List.dropWhile] at h
  | cons c t ih =>
    intro a h
    by_cases hc : p c = true
    · rw [List.dropWhile_cons, if_pos hc] at h
      exact ih h
    · rw [List.dropWhile_cons, if_neg hc] at h
      have : c = a := by simpa using h
      rw [← this]
      simpa using hc

theorem getLast?_dropWhile {p : Char → Bool} (l : List Char)
    (h : l.dropWhile p ≠ []) : (l.dropWhile p).getLast? = l.getLast? := by
  conv_rhs => rw [← List.takeWhile_append_dropWhile p l]
  exact (List.getLast?_append_of_ne_nil _ h).symm

theorem stripL_head_not_dq {l : List Char} {a : Char}
    (h : (stripL l).head? = some a) : (a == dq) = false := by
  unfold stripL at h
  rw [List.head?_reverse] at h
  by_cases hne :
      ((l.dropWhile (fun c => c == dq)).reverse.dropWhile (fun c => c == dq)) = []
  · rw [hne] at h
    simp at h
  · rw [getLast?_dropWhile _ hne, List.getLast?_reverse] at h
    exact head?_dropWhile_false (fun c => c == dq) h

theorem stripL_last_not_dq {l : List Char} {a : Char}
    (h : (stripL l).getLast? = some a) : (a == dq) = false := by
  unfold stripL at h
  rw [List.getLast?_reverse] at h
  exact head?_dropWhile_false (fun c => c == dq) h

theorem stripL_cons_dq (l : List Char) : stripL (dq :: l) = stripL l := by
  unfold stripL
  rw [List.dropWhile_cons]
  simp

theorem dropWhile_append_single {p : Char → Bool} (l : List Char) (c : Char) :
    (l ++ [c]).dropWhile p =
      if (l.dropWhile p).isEmpty then [c].dropWhile p
      else l.dropWhile p ++ [c] := by
  induction l with
  | nil => simp
  | cons a t ih =>
    by_cases ha : p a = true
    · rw [List.cons_append, List.dropWhile_cons, if_pos ha,
        List.dropWhile_cons, if_pos ha, ih]
    · rw [List.cons_append, List.dropWhile_cons, if_neg ha,
        List.dropWhile_cons, if_neg ha]
      simp

theorem stripL_append_dq (l : List Char) : stripL (l ++ [dq]) = stripL l := by
  unfold stripL
  rw [dropWhile_append_single]
  cases hd : l.dropWhile (fun c => c == dq) with
  | nil => simp [List.dropWhile]
  | cons a t =>
    simp only [List.isEmpty_cons, Bool.false_eq_true, if_false]
    rw [List.reverse_append]
    simp only [List.reverse_cons, List.reverse_nil, List.nil_append,
      List.singleton_append]
    rw [List.dropWhile_cons]
    simp

theorem stripQuotes_prepend_dq (s : String) :
    stripQuotes ("\"" ++ s) = stripQuotes s := by
  unfold stripQuotes
  rw [String.data_append]
  have hd : ("\"" : String).data = [dq] := rfl
  rw [hd, List.singleton_append, stripL_cons_dq]

theorem stripQuotes_append_dq (s : String) :
    stripQuotes (s ++ "\"") = stripQuotes s := by
  unfold stripQuotes
  rw [String.data_append]
  have hd : ("\"" : String).data = [dq] := rfl
  rw [hd, stripL_append_dq]

/-! ## Result helpers shared by the claim theorems -/

theorem scopeRv_of_null_data {m : Memory} {v : CScopeVal}
    (h : null v.data = true) : scopeRv m v = Except.ok "" := by
  unfold scopeRv
  simp [h]

theorem scopeRv_of_null_name {m : Memory} {v : CScopeVal}
    (h2 : null (Memory.scopeName m v.data) = true) :
    scopeRv m v = Except.ok "" := by
  unfold scopeRv
  by_cases h1 : null v.data = true
  · simp [h1]
  · have h1' : null v.data = false := by simpa using h1
    simp [h1', h2]

theorem scopeRv_of_summary {m : Memory} {v : CScopeVal} {s : String}
    (h1 : null v.data = false) (h2 : null (Memory.scopeName m v.data) = false)
    (hs : Memory.getSummary m (Memory.scopeName m v.data) = some s) :
    scopeRv m v = Except.ok (stripQuotes s) := by
  unfold scopeRv
  simp [h1, h2, hs, pyStrip]

theorem show_scope_empty_of_null_data {m : Memory} {v : CScopeVal}
    (h : null v.data = true) : show_c_scope_t m v = Except.ok "\"\"" := by
  unfold show_c_scope_t
  rw [scopeRv_of_null_data h, except_map_ok]
  rfl

theorem show_sname_empty_of_null_head {m : Memory} {fuel : Nat}
    {w : CSnameVal} (h : null w.head = true) :
    show_c_sname_t m fuel w = Except.ok "\"\"" := by
  unfold show_c_sname_t snameRv
  rw [chainNodes_of_null m fuel h]
  rfl

theorem scopeRv_isOk (m : Memory) (hs : ∀ a, m.summary a ≠ none)
    (v : CScopeVal) : ∃ rv, scopeRv m v = Except.ok rv := by
  by_cases h1 : null v.data = true
  · exact ⟨"", scopeRv_of_null_data h1⟩
  · have h1' : null v.data = false := by simpa using h1
    by_cases h2 : null (Memory.scopeName m v.data) = true
    · exact ⟨"", scopeRv_of_null_name h2⟩
    · have h2' : null (Memory.scopeName m v.data) = false := by simpa using h2
      have hv : (Memory.scopeName m v.data).valid = true :=
        ((null_false_iff _).mp h2').1
      cases hsum : m.summary (Memory.scopeName m v.data).value with
      | some s =>
        refine ⟨stripQuotes s, scopeRv_of_summary h1' h2' ?_⟩
        rw [Memory.getSummary, if_pos hv]
        exact hsum
      | none => exact absurd hsum (hs _)

/-! ## The claims -/

/-- C4 (confirmed): the null-reference guard returns `true` exactly for a
handle that is invalid or whose underlying numeric value is zero, and
`false` for every other resolvable handle; it is a pure function of the
handle, so it has no side effects. -/
theorem null_guard_correct (ptr : Handle) :
    null ptr = true ↔ (ptr.valid = false ∨ ptr.value = 0) := by
  simp [null]

/-- C2 (confirmed): for every chain each of whose visited nodes has a data
reference passing the guard and a name reference passing the guard with an
available non-empty extracted name, `show_c_sname_t` returns exactly the
extracted names joined in head-to-tail traversal order with `::` between
consecutive names, wrapped in the host's quote characters; a single-node
chain therefore renders with no separator. -/
theorem sname_joins_all_names (m : Memory) (fuel : Nat) (v : CSnameVal)
    (hall : ∀ p ∈ chainNodes m fuel v.head,
      null (Memory.nodeData m p) = false ∧
      null (segNamePtr m p) = false ∧
      ∃ s, segSummary m p = some s ∧ stripQuotes s ≠ "") :
    show_c_sname_t m fuel v =
      Except.ok
        ("\"" ++ sepJoin ((chainNodes m fuel v.head).map (segStr m)) ++ "\"") := by
  have hall' : ∀ p ∈ chainNodes m fuel v.head,
      emits m p = true ∧ (segSummary m p).isSome = true := by
    intro p hp
    obtain ⟨h1, h2, s, hs, _⟩ := hall p hp
    have h2' : null (Memory.scopeName m (Memory.nodeData m p)) = false := by
      simpa [segNamePtr] using h2
    exact ⟨by simp [emits, segNamePtr, h1, h2'], by simp [hs]⟩
  obtain ⟨b, hb⟩ := sname_fold_emit m _ hall'
  unfold show_c_sname_t snameRv
  rw [hb, except_map_ok]

/-- Witness for C2 at concrete inputs: the three-node chain with names
A, B, C renders as `"A::B::C"`, and a single-node chain renders with no
separator. -/
theorem sname_joins_all_names_witness :
    show_c_sname_t memABC 9 ⟨vh 1⟩ = Except.ok "\"A::B::C\"" ∧
    show_c_sname_t memABC 9 ⟨vh 3⟩ = Except.ok "\"C\"" := by
  have h1 := sname_joins_all_names memABC 9 ⟨vh 1⟩ (by
    intro p hp
    have hp' : p ∈ [vh 1, vh 2, vh 3] := hp
    fin_cases hp'
    · exact ⟨by decide, by decide, "\"A\"", rfl, by decide⟩
    · exact ⟨by decide, by decide, "\"B\"", rfl, by decide⟩
    · exact ⟨by decide, by decide, "\"C\"", rfl, by decide⟩)
  have h2 := sname_joins_all_names memABC 9 ⟨vh 3⟩ (by
    intro p hp
    have hp' : p ∈ [vh 3] := hp
    fin_cases hp'
    exact ⟨by decide, by decide, "\"C\"", rfl, by decide⟩)
  exact ⟨h1.trans (by rfl), h2.trans (by rfl)⟩

/-- C5 (confirmed): an empty chain (absent head reference) and a chain all
of whose nodes carry an absent data reference both produce the empty joined
string with no stray separators, displayed as the two quote characters. -/
theorem sname_empty_chain (m : Memory) (fuel : Nat) (v : CSnameVal) :
    (null v.head = true → show_c_sname_t m fuel v = Except.ok "\"\"") ∧
    ((∀ p ∈ chainNodes m fuel v.head, null (Memory.nodeData m p) = true) →
      show_c_sname_t m fuel v = Except.ok "\"\"") := by
  constructor
  · intro hh
    exact show_sname_empty_of_null_head hh
  · intro hall
    unfold show_c_sname_t snameRv
    rw [sname_fold_skip m _ (fun p hp => by simp [emits, hall p hp]) (false, "")]
    rfl

/-- Witness for C5 at concrete inputs: an absent head, and a two-node chain
whose data references are a zero reference and an invalid handle. -/
theorem sname_empty_chain_witness :
    show_c_sname_t memABC 9 ⟨vh 0⟩ = Except.ok "\"\"" ∧
    show_c_sname_t memND 9 ⟨vh 1⟩ = Except.ok "\"\"" := by
  refine ⟨(sname_empty_chain memABC 9 ⟨vh 0⟩).1 (by decide), ?_⟩
  refine (sname_empty_chain memND 9 ⟨vh 1⟩).2 ?_
  intro p hp
  have hp' : p ∈ [vh 1, vh 2] := hp
  fin_cases hp' <;> decide

/-- C1 counterexample: in `memAEC` the three chain segments extract to
"A", "" and "C" — the middle record's name reference passes the guard but
its string is empty — yet the formatter appends a separator before the
empty middle segment and before "C", producing `A::::C` with two
separators rather than the claimed single-separator `A::C`. -/
theorem sname_separator_cex :
    (chainNodes memAEC 9 (vh 1)).map (segStr memAEC) = ["A", "", "C"] ∧
    show_c_sname_t memAEC 9 ⟨vh 1⟩ = Except.ok "\"A::::C\"" ∧
    ("\"A::::C\"" : String) ≠ "\"A::C\"" := by
  exact ⟨rfl, rfl, by decide⟩

/-- C1 amended: the separator is governed by the presence of the name
reference, not by non-emptiness of the extracted text.  A node whose data
or name reference fails the guard contributes nothing and leaves the
separator-pending flag unchanged; a node whose references pass the guard
appends `::` exactly when the flag is already set (i.e. some earlier node's
references passed), sets the flag and appends its extracted text even when
that text is empty.  A chain rendering as A, "", C yields `A::C` when the
middle emptiness comes from an absent name reference. -/
theorem sname_separator_amended (m : Memory) (st : Bool × String)
    (p : Handle) (b : Bool) (rv s : String) :
    (emits m p = false → snameStep m st p = Except.ok st) ∧
    (emits m p = true → segSummary m p = some s →
      snameStep m (b, rv) p =
        Except.ok (true, (if b then rv ++ "::" else rv) ++ stripQuotes s)) ∧
    show_c_sname_t memANC 9 ⟨vh 1⟩ = Except.ok "\"A::C\"" :=
  ⟨snameStep_skip m st p, snameStep_emit m p b rv s, rfl⟩

/-- Witness for C1 (amended) at concrete inputs: a skipped node leaves the
state unchanged, an emitting node appends the separator and its text. -/
theorem sname_separator_amended_witness :
    snameStep memND (true, "A") (vh 1) = Except.ok (true, "A") ∧
    snameStep memABC (true, "A") (vh 2) = Except.ok (true, "A::B") := by
  have h1 := (sname_separator_amended memND (true, "A") (vh 1) true "A" "\"B\"").1
    (by decide)
  have h2 := (sname_separator_amended memABC (true, "A") (vh 2) true "A" "\"B\"").2.1
    (by decide) rfl
  exact ⟨h1, h2.trans (by rfl)⟩

/-- C3 counterexample: for a record whose name string is "A" (host summary
`"A"` with quotes) the formatter returns the quote-wrapped string, not the
bare quote-stripped text the claim promises; likewise the absent-record
result is the two-quote string, not the empty string. -/
theorem scope_bare_name_cex :
    show_c_scope_t memABC ⟨vh 11⟩ = Except.ok "\"A\"" ∧
    stripQuotes "\"A\"" = "A" ∧
    ("\"A\"" : String) ≠ "A" ∧
    show_c_scope_t memABC ⟨vh 0⟩ = Except.ok "\"\"" ∧
    ("\"\"" : String) ≠ "" :=
  ⟨rfl, rfl, by decide, rfl, by decide⟩

/-- C3 amended: with the final quote wrapping of line 49 accounted for —
when the guard reports the record's data reference or the name reference
absent the result is the two-quote display string, and otherwise it is the
quote-stripped summary text re-wrapped in quote characters (provided the
summary is available). -/
theorem scope_formatter_amended (m : Memory) (v : CScopeVal) (s : String) :
    (null v.data = true → show_c_scope_t m v = Except.ok "\"\"") ∧
    (null (Memory.scopeName m v.data) = true →
      show_c_scope_t m v = Except.ok "\"\"") ∧
    (null v.data = false → null (Memory.scopeName m v.data) = false →
      Memory.getSummary m (Memory.scopeName m v.data) = some s →
      show_c_scope_t m v = Except.ok ("\"" ++ stripQuotes s ++ "\"")) := by
  refine ⟨fun h => show_scope_empty_of_null_data h, ?_, ?_⟩
  · intro h2
    unfold show_c_scope_t
    rw [scopeRv_of_null_name h2, except_map_ok]
    rfl
  · intro h1 h2 hs
    unfold show_c_scope_t
    rw [scopeRv_of_summary h1 h2 hs, except_map_ok]

/-- Witness for C3 (amended) at concrete inputs. -/
theorem scope_formatter_amended_witness :
    show_c_scope_t memABC ⟨vh 0⟩ = Except.ok "\"\"" ∧
    show_c_scope_t memABC ⟨vh 11⟩ =
      Except.ok ("\"" ++ stripQuotes "\"A\"" ++ "\"") :=
  ⟨(scope_formatter_amended memABC ⟨vh 0⟩ "\"A\"").1 (by decide),
   (scope_formatter_amended memABC ⟨vh 11⟩ "\"A\"").2.2 (by decide) (by decide) rfl⟩

/-- C6 counterexample: in `memNoSum` every guard passes but the host
summary is unavailable, so `show_c_scope_t` propagates the Python
`AttributeError` instead of returning a string. -/
theorem scope_raises_cex :
    show_c_scope_t memNoSum ⟨vh 11⟩ = Except.error pyAttrError := rfl

/-- C6 amended: both formatters consult the null guard before every
dereference — the semantics in which dereferencing an absent reference
faults agrees with the actual semantics on every input — and whenever every
guarded summary read succeeds they return a string; a failed summary read
propagates as a host-API exception instead of a string. -/
theorem formatters_guard_derefs (m : Memory) (fuel : Nat) (v : CScopeVal)
    (w : CSnameVal) :
    show_c_scope_t_chk m v = show_c_scope_t m v ∧
    show_c_sname_t_chk m fuel w = show_c_sname_t m fuel w ∧
    ((∀ a, m.summary a ≠ none) →
      (∃ s, show_c_scope_t m v = Except.ok s) ∧
      ∃ s, show_c_sname_t m fuel w = Except.ok s) := by
  refine ⟨show_c_scope_t_chk_eq m v, show_c_sname_t_chk_eq m fuel w, ?_⟩
  intro hs
  constructor
  · obtain ⟨rv, hrv⟩ := scopeRv_isOk m hs v
    exact ⟨"\"" ++ rv ++ "\"", by unfold show_c_scope_t; rw [hrv, except_map_ok]⟩
  · obtain ⟨st, hst⟩ := sname_fold_isOk m hs (chainNodes m fuel w.head) (false, "")
    exact ⟨"\"" ++ st.2 ++ "\"",
      by unfold show_c_sname_t snameRv; rw [hst, except_map_ok]⟩

/-- Witness for C6 (amended) at concrete inputs, with all summaries
available. -/
theorem formatters_guard_derefs_witness :
    show_c_scope_t_chk memTotal ⟨vh 11⟩ = show_c_scope_t memTotal ⟨vh 11⟩ ∧
    (∃ s, show_c_sname_t memTotal 9 ⟨vh 1⟩ = Except.ok s) := by
  have h := formatters_guard_derefs memTotal 9 ⟨vh 11⟩ ⟨vh 1⟩
  exact ⟨h.1, (h.2.2 (fun a => by simp [memTotal])).2⟩

/-- C7 counterexample: a chain node whose guards pass but whose host
summary is unavailable makes `show_c_sname_t` raise the Python
`AttributeError` instead of degrading to an empty contribution. -/
theorem sname_raises_cex :
    show_c_sname_t memNoSum 9 ⟨vh 1⟩ = Except.error pyAttrError := rfl

/-- C7 amended: the chain formatter returns a rendered string whenever
every summary it is allowed to read is available, and the only exception it
can ever propagate is the `AttributeError` arising from a `None` summary —
a host API failure, which §7 of the spec says is allowed to propagate. -/
theorem sname_error_path (m : Memory) (fuel : Nat) (w : CSnameVal) :
    ((∀ a, m.summary a ≠ none) →
      ∃ s, show_c_sname_t m fuel w = Except.ok s) ∧
    ∀ e, show_c_sname_t m fuel w = Except.error e → e = pyAttrError := by
  constructor
  · intro hs
    obtain ⟨st, hst⟩ := sname_fold_isOk m hs (chainNodes m fuel w.head) (false, "")
    exact ⟨"\"" ++ st.2 ++ "\"",
      by unfold show_c_sname_t snameRv; rw [hst, except_map_ok]⟩
  · intro e he
    unfold show_c_sname_t snameRv at he
    cases hr : (chainNodes m fuel w.head).foldlM (snameStep m) (false, "") with
    | ok st =>
      rw [hr, except_map_ok] at he
      exact absurd he (by simp)
    | error e1 =>
      rw [hr, except_map_error] at he
      rw [← Except.error.inj he]
      exact sname_fold_error_eq hr

/-- Witness for C7 (amended): a memory with all summaries available
satisfies the no-raise hypothesis, and the concrete raising input
instantiates the error characterization. -/
theorem sname_error_path_witness :
    (∃ s, show_c_sname_t memTotal 9 ⟨vh 1⟩ = Except.ok s) ∧
    pyAttrError = pyAttrError :=
  ⟨(sname_error_path memTotal 9 ⟨vh 1⟩).1 (fun a => by simp [memTotal]),
   (sname_error_path memNoSum 9 ⟨vh 1⟩).2 pyAttrError rfl⟩

/-- C8 (confirmed): for every finite acyclic chain — one whose iterated
`next` references first reach an absent reference after `j` steps — the
traversal terminates: the visited-node list is the same for every
sufficient fuel, it is exactly the `j` iterates of `next` from the head in
head-to-tail order, and no node is visited twice. -/
theorem chain_traversal_terminates (m : Memory) (h : Handle) (n j : Nat)
    (hfin : firstNull m n h = some j) :
    (∀ f, j ≤ f →
      chainNodes m f h = (List.range j).map (fun k => iterNext m k h)) ∧
    (chainNodes m j h).Nodup ∧
    (chainNodes m j h).length = j := by
  refine ⟨fun f hf => chainNodes_canon hfin f hf, chainNodes_nodup hfin, ?_⟩
  rw [chainNodes_canon hfin j (Nat.le_refl j)]
  simp

/-- Witness for C8 at a concrete three-node chain of length 3. -/
theorem chain_traversal_terminates_witness :
    chainNodes memABC 9 (vh 1) = chainNodes memABC 3 (vh 1) ∧
    (chainNodes memABC 3 (vh 1)).Nodup ∧
    (chainNodes memABC 3 (vh 1)).length = 3 := by
  have h := chain_traversal_terminates memABC (vh 1) 5 3 (by decide)
  refine ⟨?_, h.2.1, h.2.2⟩
  rw [h.1 9 (by decide), h.1 3 (by decide)]

/-- C9 (confirmed): every string either formatter returns begins and ends
with a double-quote character and has length at least two — never the
zero-length empty string — and on a guard-failing input (absent data
reference, absent head) the result is exactly the two-quote string. -/
theorem formatters_quote_wrapped (m : Memory) (fuel : Nat) (v : CScopeVal)
    (w : CSnameVal) :
    (∀ s, show_c_scope_t m v = Except.ok s →
      ∃ rv, s = "\"" ++ rv ++ "\"" ∧ s.length = rv.length + 2 ∧ s ≠ "") ∧
    (∀ s, show_c_sname_t m fuel w = Except.ok s →
      ∃ rv, s = "\"" ++ rv ++ "\"" ∧ s.length = rv.length + 2 ∧ s ≠ "") ∧
    (null v.data = true → show_c_scope_t m v = Except.ok "\"\"") ∧
    (null w.head = true → show_c_sname_t m fuel w = Except.ok "\"\"") := by
  refine ⟨?_, ?_, fun h => show_scope_empty_of_null_data h,
    fun h => show_sname_empty_of_null_head h⟩
  · intro s hok
    obtain ⟨rv, _, rfl⟩ := show_scope_ok_shape hok
    exact ⟨rv, rfl, wrap_length rv, wrap_ne_empty rv⟩
  · intro s hok
    obtain ⟨st, _, rfl⟩ := show_sname_ok_shape hok
    exact ⟨st.2, rfl, wrap_length st.2, wrap_ne_empty st.2⟩

/-- Witness for C9 at concrete inputs. -/
theorem formatters_quote_wrapped_witness :
    (∃ rv, ("\"A\"" : String) = "\"" ++ rv ++ "\"" ∧
      ("\"A\"" : String).length = rv.length + 2 ∧ ("\"A\"" : String) ≠ "") ∧
    show_c_sname_t memABC 9 ⟨vh 0⟩ = Except.ok "\"\"" := by
  have h := formatters_quote_wrapped memABC 9 ⟨vh 11⟩ ⟨vh 0⟩
  exact ⟨h.1 "\"A\"" rfl, h.2.2.2 (by decide)⟩

/-- C10 (confirmed): quote stripping removes every leading and every
trailing double-quote character, not just one enclosing pair: adding a
quote on either side of the summary text changes nothing, the extracted
segment never begins or ends with a quote character, and a summary with
stacked quotes loses all of them. -/
theorem strip_removes_all_quotes (s : String) :
    stripQuotes ("\"" ++ s) = stripQuotes s ∧
    stripQuotes (s ++ "\"") = stripQuotes s ∧
    (∀ a, (stripQuotes s).data.head? = some a → (a == dq) = false) ∧
    (∀ a, (stripQuotes s).data.getLast? = some a → (a == dq) = false) ∧
    stripQuotes "\"\"\"X\"\"" = "X" := by
  refine ⟨stripQuotes_prepend_dq s, stripQuotes_append_dq s, ?_, ?_, rfl⟩
  · intro a h
    exact stripL_head_not_dq (by simpa [stripQuotes] using h)
  · intro a h
    exact stripL_last_not_dq (by simpa [stripQuotes] using h)

/-- Witness for C10 at a concrete summary text. -/
theorem strip_removes_all_quotes_witness :
    (('a' == dq) = false) ∧ (('b' == dq) = false) ∧
    stripQuotes "\"\"\"X\"\"" = "X" := by
  have h := strip_removes_all_quotes "\"ab\""
  exact ⟨h.2.2.1 'a' rfl, h.2.2.2.1 'b' rfl, h.2.2.2.2⟩
